import Mathlib

/-!
Verification development for the pegn repository (Go): a shallow embedding
of the buffered rune scanner (scanner/scanner.go, curs/curs.go), the rule
scan predicates (ws.go, field.go, scan/WhiteSpace.go, model/rule.go), and
the node-tree structures (ast/node.go, pegn.go), with theorems checking the
natural-language specification against this embedding.

Conventions of the embedding:
* Go byte buffers are `List Nat` (each entry a byte value).
* Go runes are `Nat` code-point values; the replacement rune U+FFFD is
  `runeError`.
* The scanner struct `S` carries the fields the verified operations touch
  (Buf, R, B, E, NewLine, viewlen, errors, maxerr); the Template and Trace
  fields only affect logging and are omitted.
* Pointer-linked node trees are embedded as heaps: total maps from node ids
  (`Nat`) to records of the Go struct fields, with pointers as `Option Nat`.
* Functions that Go writes as unbounded loops are given explicit fuel where
  the loop is bounded by the buffer length (each iteration strictly advances
  the cursor), or well-founded recursion where a measure is direct.
-/

/-- Go utf8.RuneError, the replacement code point U+FFFD. -/
def runeError : Nat := 0xFFFD

/-- Go utf8.RuneSelf (0x80). scanner.S.Scan compares bytes with `>` against
this constant before calling utf8.DecodeRune. -/
def runeSelf : Nat := 0x80

/-- First-byte classification of Go's utf8 decoder: the sequence size for a
leading byte together with the accept range (lo, hi) for the second byte,
from utf8.first and utf8.acceptRanges. Size 0 marks an invalid leading
byte. -/
def utf8Info (b : Nat) : Nat × Nat × Nat :=
  if b < 0x80 then (1, 0, 0)
  else if b < 0xC2 then (0, 0, 0)
  else if b < 0xE0 then (2, 0x80, 0xBF)
  else if b = 0xE0 then (3, 0xA0, 0xBF)
  else if b < 0xED then (3, 0x80, 0xBF)
  else if b = 0xED then (3, 0x80, 0x9F)
  else if b < 0xF0 then (3, 0x80, 0xBF)
  else if b = 0xF0 then (4, 0x90, 0xBF)
  else if b < 0xF4 then (4, 0x80, 0xBF)
  else if b = 0xF4 then (4, 0x80, 0x8F)
  else (0, 0, 0)

/-- Go utf8.DecodeRune on a byte list: returns the decoded code point and
the number of bytes consumed. Empty input gives (RuneError, 0); an invalid
or truncated sequence gives (RuneError, 1). -/
def decodeRune : List Nat → Nat × Nat
  | [] => (runeError, 0)
  | b0 :: rest =>
    if b0 < 0x80 then (b0, 1) else
    let info := utf8Info b0
    if info.1 = 0 then (runeError, 1) else
    match rest with
    | [] => (runeError, 1)
    | b1 :: rest1 =>
      if b1 < info.2.1 ∨ info.2.2 < b1 then (runeError, 1) else
      if info.1 = 2 then (((b0 % 0x20) * 0x40) + (b1 % 0x40), 2) else
      match rest1 with
      | [] => (runeError, 1)
      | b2 :: rest2 =>
        if b2 < 0x80 ∨ 0xBF < b2 then (runeError, 1) else
        if info.1 = 3 then
          (((b0 % 0x10) * 0x1000) + ((b1 % 0x40) * 0x40) + (b2 % 0x40), 3)
        else
          match rest2 with
          | [] => (runeError, 1)
          | b3 :: _ =>
            if b3 < 0x80 ∨ 0xBF < b3 then (runeError, 1)
            else (((b0 % 0x8) * 0x40000) + ((b1 % 0x40) * 0x1000) +
                  ((b2 % 0x40) * 0x40) + (b3 % 0x40), 4)

/-- curs.R without the buffer pointer: the last rune scanned and its byte
span. The Buf field of curs.R aliases the scanner buffer and carries no
independent state in the value model. -/
structure Curs where
  R : Nat
  B : Nat
  E : Nat
deriving DecidableEq, Repr

/-- pegn.Error: the rule type expected and the cursor position at which the
expectation failed. -/
structure Err where
  rule : Int
  pos : Curs
deriving DecidableEq, Repr

/-- scanner.S: the byte buffer, the live cursor fields R/B/E, the newline
sequences for Positions, the preview length, the error stack and its
maximum. Template and Trace fields (logging only) are omitted. -/
structure S where
  Buf : List Nat := []
  R : Nat := 0
  B : Nat := 0
  E : Nat := 0
  NewLine : List (List Nat) := []
  viewlen : Nat := 0
  errors : List Err := []
  maxerr : Nat := 0
deriving DecidableEq, Repr

/-- scanner.S.Scan: decode the next rune at E. Fails only when E has reached
the end of the buffer (the decoder path returns length 0 only on empty
input). Bytes not above utf8.RuneSelf are taken verbatim. -/
def scan (s : S) : Bool × S :=
  if s.Buf.length ≤ s.E then (false, s)
  else
    let b := s.Buf.getD s.E 0
    if runeSelf < b then
      let d := decodeRune (s.Buf.drop s.E)
      if d.2 = 0 then (false, s)
      else (true, { s with B := s.E, E := s.E + d.2, R := d.1 })
    else (true, { s with B := s.E, E := s.E + 1, R := b })

/-- scanner.S.Mark: a value snapshot of the live cursor. -/
def mark (s : S) : Curs := ⟨s.R, s.B, s.E⟩

/-- scanner.S.Goto: adopt the cursor snapshot, touching nothing else. -/
def gotoCurs (s : S) (c : Curs) : S := { s with R := c.R, B := c.B, E := c.E }

/-- scanner.S.Peek: the literal byte sequence matches at E without
advancing. -/
def peek (s : S) (a : List Nat) : Bool :=
  if s.Buf.length < a.length + s.E then false
  else decide ((s.Buf.drop s.E).take a.length = a)

/-- scanner.S.Is: the literal byte sequence matches at B (the beginning of
the last scanned rune). -/
def isStr (s : S) (a : List Nat) : Bool :=
  if s.Buf.length < a.length + s.B then false
  else decide ((s.Buf.drop s.B).take a.length = a)

/-- scanner.S.Finished: E is exactly at the end of the buffer. -/
def finished (s : S) : Bool := s.E == s.Buf.length

/-- scanner.S.Beginning: nothing scanned yet. -/
def beginning (s : S) : Bool := s.E == 0

/-- scanner.S.ErrPush: append an error to the stack. -/
def errPush (s : S) (e : Err) : S := { s with errors := s.errors ++ [e] }

/-- scanner.S.ErrPop: nil on an empty stack, otherwise remove and return the
most recently pushed error. -/
def errPop (s : S) : Option Err × S :=
  match s.errors.getLast? with
  | none => (none, s)
  | some e => (some e, { s with errors := s.errors.dropLast })

/-- scanner.S.Expected: push an expectation error at the current position
and return false. -/
def expected (s : S) (ruleid : Int) : Bool × S :=
  (false, errPush s ⟨ruleid, mark s⟩)

/-- scanner.S.Revert: Expected (error is recorded at the current, failing
position) followed by Goto back to the mark; returns false. -/
def revert (s : S) (m : Curs) (ruleid : Int) : Bool × S :=
  (false, gotoCurs (expected s ruleid).2 m)

/-- Rule type of the WhiteSpace rule (ws.go: `_WhiteSpace.Type() = 1`), also
used for the T.WhiteSpace rule identifier referenced by scan/WhiteSpace.go. -/
def wsT : Int := 1

/-- ws.go `_WhiteSpace.Scan`: mark, one plain scan step, then accept exactly
SP, TAB, LF or CR, reverting the cursor otherwise. Both failure paths carry
a literal `TODO ErrPush` comment in the source and push nothing. -/
def wsScan (s : S) : Bool × S :=
  let m := mark s
  match scan s with
  | (false, s1) => (false, s1)
  | (true, s1) =>
    if s1.R = 32 ∨ s1.R = 9 ∨ s1.R = 10 ∨ s1.R = 13 then (true, s1)
    else (false, gotoCurs s1 m)

/-- scan/WhiteSpace.go `WhiteSpace`: same shape, but the non-whitespace
failure path uses `s.Revert(m, T.WhiteSpace)` (which pushes an error); the
end-of-buffer failure path returns false directly and pushes nothing. -/
def scanWhiteSpace (s : S) : Bool × S :=
  let m := mark s
  match scan s with
  | (false, s1) => (false, s1)
  | (true, s1) =>
    if s1.R = 32 ∨ s1.R = 9 ∨ s1.R = 10 ∨ s1.R = 13 then (true, s1)
    else revert s1 m wsT

/-- model/rule.go `_Uprint.Scan`, parameterized by the class predicate
unicode.IsPrint, which the spec treats as an opaque class-membership
black box. Note the source ignores the return value of the inner
`s.Scan()` call. Failure paths push nothing (`TODO push error`). -/
def uprintScan (isP : Nat → Bool) (s : S) : Bool × S :=
  let m := mark s
  if finished s then (false, s)
  else
    let s1 := (scan s).2
    if isP s1.R then (true, s1)
    else (false, gotoCurs s1 m)

/-- The loop of field.go `_Field.Scan`:
`for !s.Peek(" ") && Uprint.Scan(s) { c++ }`. Each successful Uprint.Scan
strictly advances E within the buffer, so the loop runs at most
`Buf.length + 1` times from any state with E within bounds; the fuel
argument is set accordingly by fieldScan. -/
def fieldLoop (isP : Nat → Bool) : Nat → S → Nat → S × Nat
  | 0, s, c => (s, c)
  | fuel + 1, s, c =>
    if peek s [32] then (s, c)
    else
      match uprintScan isP s with
      | (true, s1) => fieldLoop isP fuel s1 (c + 1)
      | (false, s1) => (s1, c)

/-- field.go `_Field.Scan`: count non-space printable code points; succeed
when at least one was consumed, otherwise revert the cursor and return
false. The error push is a literal TODO in the source and never happens. -/
def fieldScan (isP : Nat → Bool) (s : S) : Bool × S :=
  let m := mark s
  let r := fieldLoop isP (s.Buf.length + 1) s 0
  if 0 < r.2 then (true, r.1)
  else (false, gotoCurs r.1 m)

/-- Lowercase hex digit character. -/
def hexDigit (n : Nat) : String :=
  String.singleton (Char.ofNat (if n < 10 then 48 + n else 87 + n))

/-- Two lowercase hex digits, as in Go strconv \xHH escapes. -/
def hex2 (n : Nat) : String := hexDigit (n / 16 % 16) ++ hexDigit (n % 16)

/-- Four lowercase hex digits, as in Go strconv \uXXXX escapes. -/
def hex4 (n : Nat) : String :=
  hexDigit (n / 4096 % 16) ++ hexDigit (n / 256 % 16) ++
  hexDigit (n / 16 % 16) ++ hexDigit (n % 16)

/-- The single-quote character as a string (Go rune quoting delimiter). -/
def squo : String := String.singleton (Char.ofNat 39)

/-- Go strconv escaping of one code point inside a quoted literal with the
given quote delimiter (39 for runes, 34 for strings): the quote and the
backslash are backslash-escaped, printable ASCII is verbatim, the short
control escapes \a \b \f \n \r \t \v apply, remaining ASCII uses \xHH.
For non-ASCII code points the unicode.IsPrint table lookup of strconv is
elided and the \uXXXX escape path is used. -/
def escChar (quote : Nat) (r : Nat) : String :=
  if r = quote then "\\" ++ String.singleton (Char.ofNat quote)
  else if r = 92 then "\\\\"
  else if 32 ≤ r ∧ r ≤ 126 then String.singleton (Char.ofNat r)
  else if r = 7 then "\\a"
  else if r = 8 then "\\b"
  else if r = 12 then "\\f"
  else if r = 10 then "\\n"
  else if r = 13 then "\\r"
  else if r = 9 then "\\t"
  else if r = 11 then "\\v"
  else if r < 0x80 then "\\x" ++ hex2 r
  else "\\u" ++ hex4 r

/-- Go %q of a rune (strconv.QuoteRune). -/
def quoteRune (r : Nat) : String := squo ++ escChar 39 r ++ squo

/-- Body of Go %q of a byte slice (strconv.Quote of the string conversion):
decode UTF-8 greedily; a byte at which decoding fails is shown as \xHH.
Each step consumes at least one byte, so fuel equal to the list length
makes the fuel recursion exact. -/
def quoteBytesAux : Nat → List Nat → String
  | _, [] => ""
  | 0, _ :: _ => ""
  | fuel + 1, b :: rest =>
    let d := decodeRune (b :: rest)
    if d.1 = runeError ∧ d.2 = 1 then "\\x" ++ hex2 b ++ quoteBytesAux fuel rest
    else escChar 34 d.1 ++ quoteBytesAux fuel (rest.drop (d.2 - 1))

/-- Go %q of a byte slice. -/
def quoteBytes (l : List Nat) : String := "\"" ++ quoteBytesAux l.length l ++ "\""

/-- curs.R.String: `%q %v-%v` of the rune and the two span offsets. -/
def cursString (c : Curs) : String :=
  quoteRune c.R ++ " " ++ toString c.B ++ "-" ++ toString c.E

/-- scanner.ViewLenDefault. -/
def viewLenDefault : Nat := 10

/-- scanner.S.String: the cursor rendering, a space, then the quoted bytes
Buf[E:end] where end is E plus the view length (default 10 when unset)
clamped to the buffer length. Nothing further is appended after the
closing quote of the preview. -/
def sString (s : S) : String :=
  let vl := if s.viewlen = 0 then viewLenDefault else s.viewlen
  let e := min (s.E + vl) s.Buf.length
  cursString ⟨s.R, s.B, s.E⟩ ++ " " ++ quoteBytes ((s.Buf.drop s.E).take (e - s.E))

/-- scanner.Position: human-friendly position data (1-based counters). -/
structure Position where
  Rune : Nat
  BufByte : Nat
  BufRune : Nat
  Line : Nat
  LByte : Nat
  LRune : Nat
deriving DecidableEq, Repr

/-- Zero value of Position (Go make([]Position, n) initialization). -/
def positionZero : Position := ⟨0, 0, 0, 0, 0, 0⟩

/-- Byte length of Go string(r) for a rune r: UTF-8 length, with surrogate
halves and out-of-range values replaced by U+FFFD (3 bytes). Used for the
`rlen` computation in Positions. -/
def runeByteLen (r : Nat) : Nat :=
  if r < 0x80 then 1
  else if r < 0x800 then 2
  else if r < 0x10000 then 3
  else if r ≤ 0x10FFFF then 4
  else 3

/-- Loop state of scanner.S.Positions: the throwaway inner scanner `_s`
and the counters `_rune`, `line`, `lbyte`, `lrune`, plus the result
slice under construction. -/
structure PosSt where
  t : S
  bufrune : Nat
  line : Nat
  lbyte : Nat
  lrune : Nat
  pos : List Position
deriving DecidableEq, Repr

/-- The inner `for _, nl := range s.NewLine` loop body of Positions: on a
match of nl at the beginning of the last scanned rune, count a line,
skip the remaining bytes of nl, and reset the in-line counters; `continue`
proceeds with the next nl entry, which the foldl models. -/
def nlFold (nls : List (List Nat)) (st : PosSt) : PosSt :=
  nls.foldl
    (fun a nl =>
      if isStr a.t nl then
        { a with
          t := { a.t with E := a.t.E + (nl.length - 1) },
          bufrune := a.bufrune + (nl.length - 1),
          line := a.line + 1, lbyte := 0, lrune := 0 }
      else a)
    st

/-- The `for i, v := range p` recording step of Positions: every query
offset equal to the current end position receives the current position
data. -/
def recordQs (qs : List Nat) (st : PosSt) : PosSt :=
  { st with
    pos := (qs.zip st.pos).map
      (fun x =>
        if st.t.E = x.1 then
          ⟨st.t.R, st.t.E, st.bufrune, st.line, st.lbyte, st.lrune⟩
        else x.2) }

/-- The `for _s.Scan()` loop of scanner.S.Positions. Each iteration
strictly advances the inner scanner, so `Buf.length + 1` fuel is enough
from any in-bounds state. `rlen` is the byte length of the receiver's
rune s.R, computed once per iteration in the source (from the outer,
unchanging receiver). -/
def posLoop (nls : List (List Nat)) (qs : List Nat) (rlen : Nat) :
    Nat → PosSt → PosSt
  | 0, st => st
  | fuel + 1, st =>
    match scan st.t with
    | (false, _) => st
    | (true, t1) =>
      let st1 := recordQs qs (nlFold nls { st with t := t1 })
      posLoop nls qs rlen fuel
        { st1 with
          lbyte := st1.lbyte + rlen, lrune := st1.lrune + 1,
          bufrune := st1.bufrune + 1 }

/-- scanner.S.Positions: returns immediately for an empty query list;
otherwise defaults NewLine to CRLF and LF, and runs one forward pass with
a fresh inner scanner over the same buffer and all counters starting at
1. The final loop state is returned so that specifications can speak
about the line counter as well as the recorded positions. -/
def positions (s : S) (qs : List Nat) : PosSt :=
  let st0 : PosSt :=
    { t := { Buf := s.Buf }, bufrune := 1, line := 1, lbyte := 1, lrune := 1,
      pos := qs.map (fun _ => positionZero) }
  if qs = [] then st0
  else
    let nls := if s.NewLine = [] then [[13, 10], [10]] else s.NewLine
    posLoop nls qs (runeByteLen s.R) (s.Buf.length + 1) st0

/-- Reference count of line separators, written from the specification
words: the newline byte sequences CRLF and LF are atomic separators, a
CRLF counting as one newline event (not two). Used to compare the
Positions pass against the spec. -/
def atomicNewlines (l : List Nat) : Nat :=
  match l with
  | [] => 0
  | b :: rest =>
    if b = 13 ∧ rest.head? = some 10 then atomicNewlines rest.tail + 1
    else if b = 10 then atomicNewlines rest + 1
    else atomicNewlines rest
termination_by l.length
decreasing_by
  all_goals simp only [List.length_cons, List.length_tail]
  all_goals omega

/-- Byte list of an ASCII string (used for concrete test buffers). -/
def strBytes (s : String) : List Nat := s.data.map Char.toNat

/-- ast.Node struct fields: type, value, parent pointer, sibling pointers,
first/last child pointers and the maintained child count. Pointers are node
ids in a heap. -/
structure NodeRec where
  T : Int := 0
  V : String := ""
  P : Option Nat := none
  left : Option Nat := none
  right : Option Nat := none
  first : Option Nat := none
  last : Option Nat := none
  count : Int := 0
deriving DecidableEq, Repr

/-- A heap of ast nodes: a total map from node ids to records. -/
def Heap := Nat → NodeRec

/-- Pointwise heap update at one id. -/
def upd (h : Heap) (i : Nat) (r : NodeRec) : Heap :=
  fun j => if j = i then r else h j

/-- The sibling chain from pointer p through exactly the ids of l, ending in
the terminator q: each element's right pointer is the next element, and the
final right pointer is q. With q = none this is the full child list shape
that ast.Node.Nodes walks. -/
def chainB (h : Heap) : Option Nat → List Nat → Option Nat → Bool
  | p, [], q => p == q
  | p, i :: rest, q => p == some i && chainB h (h i).right rest q

/-- ast.Node.Nodes sibling walk from a first child, bounded by fuel (the Go
loop runs until a nil right pointer; adequate fuel reproduces it exactly). -/
def chaseF (h : Heap) : Nat → Nat → List Nat
  | 0, c => [c]
  | fuel + 1, c =>
    match (h c).right with
    | none => [c]
    | some r => c :: chaseF h fuel r

/-- ast.Node.Nodes: nil for a childless node, otherwise the sibling walk
from the first child. -/
def nodesF (h : Heap) (fuel : Nat) (i : Nat) : List Nat :=
  match (h i).first with
  | none => []
  | some c => chaseF h fuel c


/-- Single-field assignment r.count = c, as in Go statements. -/
def withCount (r : NodeRec) (c : Int) : NodeRec := { r with count := c }

/-- Single-field assignment r.first = x. -/
def withFirst (r : NodeRec) (x : Option Nat) : NodeRec := { r with first := x }

/-- Single-field assignment r.last = x. -/
def withLast (r : NodeRec) (x : Option Nat) : NodeRec := { r with last := x }

/-- Single-field assignment r.right = x. -/
def withRight (r : NodeRec) (x : Option Nat) : NodeRec := { r with right := x }

/-- Single-field assignment r.left = x. -/
def withLeft (r : NodeRec) (x : Option Nat) : NodeRec := { r with left := x }

/-- ast.Node.Append: increment Count, then link u at the end of the child
list (first and last for an empty list, otherwise relink last.right, u.left
and last), one heap update per Go assignment statement. A nil last pointer
alongside a non-nil first would make Go fault; the model reads id 0 in that
(ill-formed) case. -/
def appendNode (h : Heap) (n u : Nat) : Heap :=
  let h1 := upd h n (withCount (h n) ((h n).count + 1))
  if (h1 n).first = none then
    let h2 := upd h1 n (withFirst (h1 n) (some u))
    upd h2 n (withLast (h2 n) (some u))
  else
    let nl := ((h1 n).last).getD 0
    let h2 := upd h1 nl (withRight (h1 nl) (some u))
    let h3 := upd h2 u (withLeft (h2 u) ((h2 n).last))
    upd h3 n (withLast (h3 n) (some u))

/-- ast.Node.Add: allocate a fresh zeroed node u with the given type and
value and parent n, then Append it under n. The id u models the fresh
allocation and must be unused. -/
def addNode (h : Heap) (n u : Nat) (t : Int) (v : String) : Heap :=
  appendNode
    (upd h u
      { T := t, V := v, P := some n, left := none, right := none,
        first := none, last := none, count := 0 })
    n u

/-- ast.Node.Take: move the donor f's whole child list under n by pointer
relinking, one heap update per Go assignment statement in source order,
then zero the donor's Count, first and last. No-op when the donor has no
children. -/
def takeN (h : Heap) (n f : Nat) : Heap :=
  if (h f).first = none then h
  else
    let h2 :=
      if (h n).first = none then
        let ha := upd h n (withFirst (h n) ((h f).first))
        let hb := upd ha n (withLast (ha n) ((ha f).last))
        upd hb n (withCount (hb n) ((hb f).count))
      else
        let ha := upd h n (withCount (h n) ((h n).count + (h f).count))
        let nl := ((ha n).last).getD 0
        let hb := upd ha nl (withRight (ha nl) ((ha f).first))
        let ff := ((hb f).first).getD 0
        let hc := upd hb ff (withLeft (hb ff) ((hb n).last))
        upd hc n (withLast (hc n) ((hc f).last))
    let hx := upd h2 f (withCount (h2 f) 0)
    let hy := upd hx f (withFirst (hx f) none)
    upd hy f (withLast (hy f) none)

/-- ast.Node.Cut: unlink n from its sibling chain, fix the former parent's
first/last/Count, and clear n's parent and sibling links. -/
def cutNode (h : Heap) (n : Nat) : Heap :=
  let h1 :=
    match (h n).left with
    | none => h
    | some l => upd h l { h l with right := (h n).right }
  let h2 :=
    match (h1 n).right with
    | none => h1
    | some r => upd h1 r { h1 r with left := (h1 n).left }
  let h3 :=
    match (h2 n).P with
    | none => h2
    | some p =>
      let ha := upd h2 p { h2 p with count := (h2 p).count - 1 }
      let hb :=
        if (ha p).first = some n then
          upd ha p { ha p with first := (ha n).right }
        else ha
      if (hb p).last = some n then
        upd hb p { hb p with last := (hb n).left }
      else hb
  upd h3 n { h3 n with P := none, left := none, right := none }

/-- ast.Node.Morph: Init then adopt every field of c, preserving n's own
identity (its id). -/
def morphNode (h : Heap) (n c : Nat) : Heap :=
  upd h n
    { T := (h c).T, V := (h c).V, P := (h c).P, left := (h c).left,
      right := (h c).right, first := (h c).first, last := (h c).last,
      count := (h c).count }

/-- One character of Go encoding/json string escaping with SetEscapeHTML
disabled: quote and backslash escaped, \n \r \t short forms, other control
characters as \u00XX, everything else verbatim. -/
def jsonEsc (c : Char) : String :=
  if c = Char.ofNat 34 then "\\\""
  else if c = Char.ofNat 92 then "\\\\"
  else if c = Char.ofNat 10 then "\\n"
  else if c = Char.ofNat 13 then "\\r"
  else if c = Char.ofNat 9 then "\\t"
  else if c.toNat < 32 then "\\u00" ++ hex2 c.toNat
  else String.singleton c

/-- Go encoding/json rendering of a string value (EscapeHTML off). -/
def jsonQuote (v : String) : String :=
  "\"" ++ String.join (v.data.map jsonEsc) ++ "\""

/-- The data ast.Node.MarshalJSON serializes: the type, the value, and the
children in sibling order (the jsnode holding struct filled from T, V and
Nodes()). -/
inductive AstNode where
  | mk (T : Int) (V : String) (kids : List AstNode)

mutual
/-- ast.Node.MarshalJSON via the jsnode holding struct: key T always, key V
only for a non-empty value (json omitempty), key N only for a non-empty
child list (omitempty), children in sibling order, compact encoding. -/
def astMarshal : AstNode → String
  | .mk t v kids =>
    "\x7b\"T\":" ++ toString t ++
    (if v = "" then "" else ",\"V\":" ++ jsonQuote v) ++
    (if kids.isEmpty then "" else ",\"N\":[" ++ astMarshalList kids ++ "]") ++
    "\x7d"

/-- Children of a node in a JSON array: comma separated, in order. -/
def astMarshalList : List AstNode → String
  | [] => ""
  | [k] => astMarshal k
  | k :: k2 :: rest => astMarshal k ++ "," ++ astMarshalList (k2 :: rest)
end

/-- Read the tree under id i out of a heap into the marshalling view, with
fuel bounding both depth and sibling-walk length. -/
def readNode (h : Heap) : Nat → Nat → AstNode
  | 0, i => .mk (h i).T (h i).V []
  | fuel + 1, i =>
    .mk (h i).T (h i).V ((nodesF h (fuel + 1) i).map (readNode h fuel))

/-- pegn.Node struct fields (pegn.go): type, value, node over (parent),
first node under, node to the right. -/
structure PNodeRec where
  T : Int := 0
  V : String := ""
  O : Option Nat := none
  U : Option Nat := none
  R : Option Nat := none
deriving DecidableEq, Repr

/-- A heap of pegn nodes. -/
def PHeap := Nat → PNodeRec

/-- Sibling chain over pegn right pointers, as chainB for ast nodes. -/
def pchainB (h : PHeap) : Option Nat → List Nat → Option Nat → Bool
  | p, [], q => p == q
  | p, i :: rest, q => p == some i && pchainB h (h i).R rest q

/-- The loop of pegn.Node.Nodes: `for cur := n.U; cur.R != nil; cur = cur.R`
appends cur only while cur has a right sibling, so the node whose R is nil
is never appended. Fuel bounds the walk. -/
def pnodesLoop (h : PHeap) : Nat → Nat → List Nat
  | 0, _ => []
  | fuel + 1, c =>
    match (h c).R with
    | none => []
    | some r => c :: pnodesLoop h fuel r

/-- pegn.Node.Nodes: nil for no first-node-under, otherwise the loop from
it. -/
def pnodes (h : PHeap) (fuel : Nat) (i : Nat) : List Nat :=
  match (h i).U with
  | none => []
  | some c => pnodesLoop h fuel c

/-- Default reflection-based encoding/json marshalling of a *pegn.Node field
(no json tags on the struct): nil is null, otherwise an object with all
five exported fields under their field names, pointers nested recursively.
Fuel bounds pointer-chasing depth (Go errors out on cycles; the model
returns "" at exhaustion). -/
def pmarshalOpt (h : PHeap) : Nat → Option Nat → String
  | _, none => "null"
  | 0, some _ => ""
  | fuel + 1, some i =>
    "\x7b\"T\":" ++ toString (h i).T ++ ",\"V\":" ++ jsonQuote (h i).V ++
    ",\"O\":" ++ pmarshalOpt h fuel (h i).O ++
    ",\"U\":" ++ pmarshalOpt h fuel (h i).U ++
    ",\"R\":" ++ pmarshalOpt h fuel (h i).R ++ "\x7d"

/-- Default marshalling of one pegn.Node object. -/
def pmarshal (h : PHeap) (fuel : Nat) (i : Nat) : String :=
  pmarshalOpt h (fuel + 1) (some i)

/-- pegn.Node.String: marshal the anonymous holding struct with fields T,
V (omitempty) and N (omitempty) where N is the Nodes() result; the array
elements are default-marshalled nodes. -/
def pegnString (h : PHeap) (fuel : Nat) (i : Nat) : String :=
  let ns := pnodes h fuel i
  "\x7b\"T\":" ++ toString (h i).T ++
  (if (h i).V = "" then "" else ",\"V\":" ++ jsonQuote (h i).V) ++
  (if ns.isEmpty then ""
   else ",\"N\":[" ++ String.intercalate "," (ns.map (pmarshal h fuel)) ++ "]") ++
  "\x7d"

/-- The (code point, byte length) the Scan branch structure consumes at a
position: a byte not above RuneSelf verbatim with length 1, otherwise the
utf8 decoder's result on the remaining buffer. -/
def decodedAt (buf : List Nat) (i : Nat) : Nat × Nat :=
  let b := buf.getD i 0
  if runeSelf < b then decodeRune (buf.drop i) else (b, 1)

/-- The scanner state after a successful Scan step: spanStart moves to the
old spanEnd, spanEnd advances by the consumed byte count, and the rune is
the decoded code point. -/
def scanStep (s : S) : S :=
  { s with B := s.E, E := s.E + (decodedAt s.Buf s.E).2,
           R := (decodedAt s.Buf s.E).1 }

/-- The effective preview window of scanner.S.String: the default 10 when
the view length is unset. -/
def effViewLen (s : S) : Nat :=
  if s.viewlen = 0 then viewLenDefault else s.viewlen

/-- Modelled from the spec: "the byte sequence at that position is not
valid" / "Decoding must match standard UTF-8 semantics (1-4 byte
sequences); invalid leading bytes or truncated sequences fail the scan".
A position holds a valid sequence when it is in bounds and the utf8
decoder does not signal the error result (RuneError with at most one byte
consumed). Used only to compare the spec's failure condition with the
code's. -/
def validUTF8At (buf : List Nat) (i : Nat) : Bool :=
  decide (i < buf.length) &&
    !((decodeRune (buf.drop i)).1 == runeError &&
      decide ((decodeRune (buf.drop i)).2 ≤ 1))

/-- Scanner over buffer "1 " at the start (the repository's own ws example
input): code point 1 is not whitespace, so a whitespace scan fails here. -/
def sWs1 : S := { Buf := strBytes "1 " }

/-- Scanner over the empty buffer: any scan step fails at end of input. -/
def sEmptyBuf : S := {}

/-- Scanner over buffer " x" at the start: Peek(" ") succeeds immediately,
so the Field rule consumes nothing and fails. -/
def sSpaceX : S := { Buf := strBytes " x" }

/-- Scanner over the single byte 0xFF, an invalid UTF-8 leading byte. -/
def sFF : S := { Buf := [0xFF] }

/-- Scanner over twenty bytes of ASCII with the default view length: the
buffer extends well beyond the preview window. -/
def sPrev : S := { Buf := List.replicate 20 97 }

/-- A heap with one ast node (id 0) carrying the non-empty value "x". -/
def c3Heap : Heap := fun i => if i = 0 then { V := "x" } else {}

/-- Heap for the spec's serialization example: node 0 is untyped with no
value and one child, node 1 of type 2 with value "some". -/
def c6Heap : Heap := fun i =>
  if i = 0 then { first := some 1, last := some 1, count := 1 }
  else if i = 1 then { T := 2, V := "some", P := some 0 }
  else ({} : NodeRec)

/-- Heap for a concrete Take: receiver 0 with child [2], donor 1 with
children [3, 4]. -/
def c5Heap : Heap := fun i =>
  if i = 0 then { first := some 2, last := some 2, count := 1 }
  else if i = 1 then { first := some 3, last := some 4, count := 2 }
  else if i = 2 then { T := 10, P := some 0 }
  else if i = 3 then { T := 11, P := some 1, right := some 4 }
  else if i = 4 then { T := 12, P := some 1, left := some 3 }
  else ({} : NodeRec)

/-- pegn heap: node 0 with exactly one node under it (id 1). -/
def c9Heap1 : PHeap := fun i => if i = 0 then { U := some 1 } else {}

/-- pegn heap of the repository's ExampleNode_nodes test: node 0 with two
nodes under it (1 then 2). -/
def c9Heap2 : PHeap := fun i =>
  if i = 0 then { U := some 1 }
  else if i = 1 then { R := some 2 }
  else ({} : PNodeRec)

/-- The Positions example buffer from the repository's scanner tests. -/
def posExS : S := { Buf := strBytes "one line\nand another\r\nand yet another" }

lemma decodeRune_snd_pos (b : Nat) (rest : List Nat) :
    1 ≤ (decodeRune (b :: rest)).2 := by
  rcases rest with _ | ⟨b1, _ | ⟨b2, _ | ⟨b3, rest3⟩⟩⟩ <;>
    simp only [decodeRune] <;> split_ifs <;> simp

lemma decodedAt_pos (buf : List Nat) (i : Nat) (h : i < buf.length) :
    1 ≤ (decodedAt buf i).2 := by
  simp only [decodedAt]
  split_ifs with hb
  · have hne : buf.drop i ≠ [] := by
      simp only [ne_eq, List.drop_eq_nil_iff]
      omega
    rcases hd : buf.drop i with _ | ⟨c, l⟩
    · exact absurd hd hne
    · exact decodeRune_snd_pos c l
  · simp

lemma scan_char (s : S) :
    if s.Buf.length ≤ s.E then scan s = (false, s)
    else scan s = (true, { s with B := s.E, E := s.E + (decodedAt s.Buf s.E).2,
                                  R := (decodedAt s.Buf s.E).1 }) := by
  by_cases h : s.Buf.length ≤ s.E
  · simp only [h, if_true]
    simp only [scan, h, if_true, reduceIte]
  · simp only [h, if_false]
    simp only [scan, decodedAt, h, reduceIte]
    by_cases hb : runeSelf < s.Buf.getD s.E 0
    · simp only [hb, if_true, reduceIte]
      have hne : s.Buf.drop s.E ≠ [] := by
        simp only [ne_eq, List.drop_eq_nil_iff]
        omega
      rcases hd : s.Buf.drop s.E with _ | ⟨c, l⟩
      · exact absurd hd hne
      · have hpos := decodeRune_snd_pos c l
        rw [if_neg (by omega)]
    · simp only [hb, if_false, reduceIte]

/-- C4: for every scanner state, Mark then Scan then Goto restores the
cursor (rune, span start, span end) to exactly the marked values; the
buffer and the error stack are also untouched by the round trip. The
no-allocation and no-rescan aspects are operational and outside the state
model. -/
theorem C4_markGotoRoundTrip (s : S) :
    mark (gotoCurs (scan s).2 (mark s)) = mark s ∧
    (gotoCurs (scan s).2 (mark s)).Buf = s.Buf ∧
    (gotoCurs (scan s).2 (mark s)).errors = s.errors := by
  have hchar := scan_char s
  by_cases h : s.Buf.length ≤ s.E <;>
    simp only [h, if_true, if_false, reduceIte] at hchar <;>
    simp [hchar, gotoCurs, mark]

/-- C10: ErrPop returns the most recently pushed error (none on an empty
stack) and removes exactly it; on an empty stack the scanner is returned
unchanged, with no panic path. -/
theorem C10_errPop (s : S) :
    (errPop s).1 = s.errors.getLast? ∧
    (errPop s).2 = { s with errors := s.errors.dropLast } ∧
    (s.errors = [] → errPop s = (none, s)) := by
  refine ⟨?_, ?_, ?_⟩
  · unfold errPop
    rcases h : s.errors.getLast? with _ | e <;> simp
  · unfold errPop
    rcases h : s.errors.getLast? with _ | e
    · have he : s.errors = [] := List.getLast?_eq_none_iff.mp h
      cases s with
      | mk Buf R B E NewLine viewlen errors maxerr => simp_all
    · simp
  · intro h
    unfold errPop
    simp [h]

/-- C10 witness: ErrPop on a concrete empty-stack scanner. -/
theorem C10_errPop_witness :
    errPop sEmptyBuf = (none, sEmptyBuf) :=
  (C10_errPop sEmptyBuf).2.2 rfl

/-- C1 (code bug): at concrete failing inputs, each of the three scan
predicates returns false with the cursor bit-for-bit unchanged but with
the error stack still empty: no error record is pushed, contrary to the
mandatory-diagnostics contract (the implementations carry literal TODO
ErrPush comments). The whitespace rule fails on code point 1; the scan
package WhiteSpace fails at end of buffer; the Field rule fails with
Peek(" ") true, for any printable-class predicate. -/
theorem C1_noErrorPushed :
    (wsScan sWs1 = (false, sWs1) ∧ (wsScan sWs1).2.errors = []) ∧
    (scanWhiteSpace sEmptyBuf = (false, sEmptyBuf) ∧
      (scanWhiteSpace sEmptyBuf).2.errors = []) ∧
    (∀ isP : Nat → Bool,
      fieldScan isP sSpaceX = (false, sSpaceX) ∧
      (fieldScan isP sSpaceX).2.errors = []) := by
  refine ⟨by decide, by decide, fun isP => ⟨rfl, rfl⟩⟩

/-- C2 counterexample: the buffer holding the single invalid leading byte
0xFF. The byte sequence at the cursor is not valid UTF-8, yet Scan
returns true, consuming one byte and producing the replacement code
point, so the claim's "returns false ... exactly when ... not valid
UTF-8" fails here. -/
theorem C2_invalidUTF8Accepted :
    validUTF8At sFF.Buf sFF.E = false ∧
    (scan sFF).1 = true ∧
    (scan sFF).2.R = runeError ∧
    (scan sFF).2.E = 1 ∧
    (scan sFF).2.errors = [] := by decide

/-- C2 (amended): Scan fails (returns false, state unchanged) exactly when
spanEnd is at or past the end of the buffer; it never modifies the error
stack; on success spanStart becomes the old spanEnd, spanEnd advances by
the number of bytes the decoder consumes (at least one; for an invalid or
truncated sequence this is one byte and the code point is U+FFFD rather
than a failure), and the live code point is updated. -/
theorem C2_scanCharacterization (s : S) :
    ((scan s).1 = false ↔ s.Buf.length ≤ s.E) ∧
    ((scan s).1 = false → (scan s).2 = s) ∧
    (scan s).2.errors = s.errors ∧
    ((scan s).1 = true →
      (scan s).2 = { s with B := s.E, E := s.E + (decodedAt s.Buf s.E).2,
                            R := (decodedAt s.Buf s.E).1 } ∧
      1 ≤ (decodedAt s.Buf s.E).2) := by
  have hchar := scan_char s
  by_cases h : s.Buf.length ≤ s.E <;>
    simp only [h, if_true, if_false, reduceIte] at hchar
  · simp [hchar, h]
  · refine ⟨by simp [hchar, h], by simp [hchar], by simp [hchar], ?_⟩
    intro _
    exact ⟨by rw [hchar], decodedAt_pos s.Buf s.E (by omega)⟩

/-- C2 witness: the amended success clause evaluated on the invalid-byte
buffer. -/
theorem C2_scanCharacterization_witness :
    (scan sFF).2 = { sFF with B := sFF.E, E := sFF.E + (decodedAt sFF.Buf sFF.E).2,
                              R := (decodedAt sFF.Buf sFF.E).1 } ∧
    1 ≤ (decodedAt sFF.Buf sFF.E).2 :=
  (C2_scanCharacterization sFF).2.2.2 (by decide)

/-- C8 counterexample: a twenty-byte buffer with the default preview
window of ten. The buffer extends beyond the window, yet the rendered
diagnostic string is exactly the quoted code point, the span, and the
silently truncated quoted preview: it ends at the closing quote, contains
no ellipsis code point, and does not end in three dots. -/
theorem C8_noEllipsisMarker :
    sPrev.E + effViewLen sPrev < sPrev.Buf.length ∧
    sString sPrev = squo ++ "\\x00" ++ squo ++ " 0-0 \"aaaaaaaaaa\"" ∧
    (sString sPrev).data.contains (Char.ofNat 0x2026) = false ∧
    ((sString sPrev).data.reverse.take 4 =
      [Char.ofNat 34, Char.ofNat 46, Char.ofNat 46, Char.ofNat 46]) = False ∧
    (sString sPrev).data.getLast? = some (Char.ofNat 34) := by decide

/-- C8 (amended): the diagnostic rendering is the quoted current code
point, the span as start-end, and the quoted preview of the next
min(viewlen, remaining) bytes, where viewlen defaults to 10 when unset;
when the buffer extends beyond the window the preview is truncated
silently, with no ellipsis marker appended. -/
theorem C8_stringFormat (s : S) :
    sString s = cursString ⟨s.R, s.B, s.E⟩ ++ " " ++
      quoteBytes ((s.Buf.drop s.E).take (min (effViewLen s) (s.Buf.length - s.E))) ∧
    ((s.Buf.drop s.E).take (min (effViewLen s) (s.Buf.length - s.E))).length =
      min (effViewLen s) (s.Buf.length - s.E) := by
  constructor
  · simp only [sString, effViewLen, viewLenDefault]
    have harith :
        min (s.E + (if s.viewlen = 0 then 10 else s.viewlen)) s.Buf.length - s.E =
        min (if s.viewlen = 0 then 10 else s.viewlen) (s.Buf.length - s.E) := by
      omega
    rw [harith]
  · simp only [List.length_take, List.length_drop]
    omega

lemma upd_same (h : Heap) (i : Nat) (r : NodeRec) : (upd h i r) i = r := by
  simp [upd]

lemma upd_ne (h : Heap) (i : Nat) (r : NodeRec) (j : Nat) (hj : j ≠ i) :
    (upd h i r) j = h j := by
  simp [upd, hj]


@[simp] lemma withCount_T (r : NodeRec) (c : Int) :
    (withCount r c).T = r.T := rfl

@[simp] lemma withCount_V (r : NodeRec) (c : Int) :
    (withCount r c).V = r.V := rfl

@[simp] lemma withCount_P (r : NodeRec) (c : Int) :
    (withCount r c).P = r.P := rfl

@[simp] lemma withCount_left (r : NodeRec) (c : Int) :
    (withCount r c).left = r.left := rfl

@[simp] lemma withCount_right (r : NodeRec) (c : Int) :
    (withCount r c).right = r.right := rfl

@[simp] lemma withCount_first (r : NodeRec) (c : Int) :
    (withCount r c).first = r.first := rfl

@[simp] lemma withCount_last (r : NodeRec) (c : Int) :
    (withCount r c).last = r.last := rfl

@[simp] lemma withCount_count (r : NodeRec) (c : Int) :
    (withCount r c).count = c := rfl

@[simp] lemma withFirst_T (r : NodeRec) (x : Option Nat) :
    (withFirst r x).T = r.T := rfl

@[simp] lemma withFirst_V (r : NodeRec) (x : Option Nat) :
    (withFirst r x).V = r.V := rfl

@[simp] lemma withFirst_P (r : NodeRec) (x : Option Nat) :
    (withFirst r x).P = r.P := rfl

@[simp] lemma withFirst_left (r : NodeRec) (x : Option Nat) :
    (withFirst r x).left = r.left := rfl

@[simp] lemma withFirst_right (r : NodeRec) (x : Option Nat) :
    (withFirst r x).right = r.right := rfl

@[simp] lemma withFirst_first (r : NodeRec) (x : Option Nat) :
    (withFirst r x).first = x := rfl

@[simp] lemma withFirst_last (r : NodeRec) (x : Option Nat) :
    (withFirst r x).last = r.last := rfl

@[simp] lemma withFirst_count (r : NodeRec) (x : Option Nat) :
    (withFirst r x).count = r.count := rfl

@[simp] lemma withLast_T (r : NodeRec) (x : Option Nat) :
    (withLast r x).T = r.T := rfl

@[simp] lemma withLast_V (r : NodeRec) (x : Option Nat) :
    (withLast r x).V = r.V := rfl

@[simp] lemma withLast_P (r : NodeRec) (x : Option Nat) :
    (withLast r x).P = r.P := rfl

@[simp] lemma withLast_left (r : NodeRec) (x : Option Nat) :
    (withLast r x).left = r.left := rfl

@[simp] lemma withLast_right (r : NodeRec) (x : Option Nat) :
    (withLast r x).right = r.right := rfl

@[simp] lemma withLast_first (r : NodeRec) (x : Option Nat) :
    (withLast r x).first = r.first := rfl

@[simp] lemma withLast_last (r : NodeRec) (x : Option Nat) :
    (withLast r x).last = x := rfl

@[simp] lemma withLast_count (r : NodeRec) (x : Option Nat) :
    (withLast r x).count = r.count := rfl

@[simp] lemma withRight_T (r : NodeRec) (x : Option Nat) :
    (withRight r x).T = r.T := rfl

@[simp] lemma withRight_V (r : NodeRec) (x : Option Nat) :
    (withRight r x).V = r.V := rfl

@[simp] lemma withRight_P (r : NodeRec) (x : Option Nat) :
    (withRight r x).P = r.P := rfl

@[simp] lemma withRight_left (r : NodeRec) (x : Option Nat) :
    (withRight r x).left = r.left := rfl

@[simp] lemma withRight_right (r : NodeRec) (x : Option Nat) :
    (withRight r x).right = x := rfl

@[simp] lemma withRight_first (r : NodeRec) (x : Option Nat) :
    (withRight r x).first = r.first := rfl

@[simp] lemma withRight_last (r : NodeRec) (x : Option Nat) :
    (withRight r x).last = r.last := rfl

@[simp] lemma withRight_count (r : NodeRec) (x : Option Nat) :
    (withRight r x).count = r.count := rfl

@[simp] lemma withLeft_T (r : NodeRec) (x : Option Nat) :
    (withLeft r x).T = r.T := rfl

@[simp] lemma withLeft_V (r : NodeRec) (x : Option Nat) :
    (withLeft r x).V = r.V := rfl

@[simp] lemma withLeft_P (r : NodeRec) (x : Option Nat) :
    (withLeft r x).P = r.P := rfl

@[simp] lemma withLeft_left (r : NodeRec) (x : Option Nat) :
    (withLeft r x).left = x := rfl

@[simp] lemma withLeft_right (r : NodeRec) (x : Option Nat) :
    (withLeft r x).right = r.right := rfl

@[simp] lemma withLeft_first (r : NodeRec) (x : Option Nat) :
    (withLeft r x).first = r.first := rfl

@[simp] lemma withLeft_last (r : NodeRec) (x : Option Nat) :
    (withLeft r x).last = r.last := rfl

@[simp] lemma withLeft_count (r : NodeRec) (x : Option Nat) :
    (withLeft r x).count = r.count := rfl

@[simp] lemma upd_withCount_T (h : Heap) (i : Nat) (v : Int) (j : Nat) :
    ((upd h i (withCount (h i) v)) j).T = (h j).T := by
  simp only [upd]
  split_ifs with hh
  · subst hh
    rfl
  · rfl

@[simp] lemma upd_withCount_V (h : Heap) (i : Nat) (v : Int) (j : Nat) :
    ((upd h i (withCount (h i) v)) j).V = (h j).V := by
  simp only [upd]
  split_ifs with hh
  · subst hh
    rfl
  · rfl

@[simp] lemma upd_withCount_P (h : Heap) (i : Nat) (v : Int) (j : Nat) :
    ((upd h i (withCount (h i) v)) j).P = (h j).P := by
  simp only [upd]
  split_ifs with hh
  · subst hh
    rfl
  · rfl

@[simp] lemma upd_withCount_left (h : Heap) (i : Nat) (v : Int) (j : Nat) :
    ((upd h i (withCount (h i) v)) j).left = (h j).left := by
  simp only [upd]
  split_ifs with hh
  · subst hh
    rfl
  · rfl

@[simp] lemma upd_withCount_right (h : Heap) (i : Nat) (v : Int) (j : Nat) :
    ((upd h i (withCount (h i) v)) j).right = (h j).right := by
  simp only [upd]
  split_ifs with hh
  · subst hh
    rfl
  · rfl

@[simp] lemma upd_withCount_first (h : Heap) (i : Nat) (v : Int) (j : Nat) :
    ((upd h i (withCount (h i) v)) j).first = (h j).first := by
  simp only [upd]
  split_ifs with hh
  · subst hh
    rfl
  · rfl

@[simp] lemma upd_withCount_last (h : Heap) (i : Nat) (v : Int) (j : Nat) :
    ((upd h i (withCount (h i) v)) j).last = (h j).last := by
  simp only [upd]
  split_ifs with hh
  · subst hh
    rfl
  · rfl

@[simp] lemma upd_withCount_count (h : Heap) (i : Nat) (v : Int) (j : Nat) :
    ((upd h i (withCount (h i) v)) j).count = if j = i then v else (h j).count := by
  simp only [upd]
  split_ifs <;> rfl

@[simp] lemma upd_withFirst_T (h : Heap) (i : Nat) (v : Option Nat) (j : Nat) :
    ((upd h i (withFirst (h i) v)) j).T = (h j).T := by
  simp only [upd]
  split_ifs with hh
  · subst hh
    rfl
  · rfl

@[simp] lemma upd_withFirst_V (h : Heap) (i : Nat) (v : Option Nat) (j : Nat) :
    ((upd h i (withFirst (h i) v)) j).V = (h j).V := by
  simp only [upd]
  split_ifs with hh
  · subst hh
    rfl
  · rfl

@[simp] lemma upd_withFirst_P (h : Heap) (i : Nat) (v : Option Nat) (j : Nat) :
    ((upd h i (withFirst (h i) v)) j).P = (h j).P := by
  simp only [upd]
  split_ifs with hh
  · subst hh
    rfl
  · rfl

@[simp] lemma upd_withFirst_left (h : Heap) (i : Nat) (v : Option Nat) (j : Nat) :
    ((upd h i (withFirst (h i) v)) j).left = (h j).left := by
  simp only [upd]
  split_ifs with hh
  · subst hh
    rfl
  · rfl

@[simp] lemma upd_withFirst_right (h : Heap) (i : Nat) (v : Option Nat) (j : Nat) :
    ((upd h i (withFirst (h i) v)) j).right = (h j).right := by
  simp only [upd]
  split_ifs with hh
  · subst hh
    rfl
  · rfl

@[simp] lemma upd_withFirst_first (h : Heap) (i : Nat) (v : Option Nat) (j : Nat) :
    ((upd h i (withFirst (h i) v)) j).first = if j = i then v else (h j).first := by
  simp only [upd]
  split_ifs <;> rfl

@[simp] lemma upd_withFirst_last (h : Heap) (i : Nat) (v : Option Nat) (j : Nat) :
    ((upd h i (withFirst (h i) v)) j).last = (h j).last := by
  simp only [upd]
  split_ifs with hh
  · subst hh
    rfl
  · rfl

@[simp] lemma upd_withFirst_count (h : Heap) (i : Nat) (v : Option Nat) (j : Nat) :
    ((upd h i (withFirst (h i) v)) j).count = (h j).count := by
  simp only [upd]
  split_ifs with hh
  · subst hh
    rfl
  · rfl

@[simp] lemma upd_withLast_T (h : Heap) (i : Nat) (v : Option Nat) (j : Nat) :
    ((upd h i (withLast (h i) v)) j).T = (h j).T := by
  simp only [upd]
  split_ifs with hh
  · subst hh
    rfl
  · rfl

@[simp] lemma upd_withLast_V (h : Heap) (i : Nat) (v : Option Nat) (j : Nat) :
    ((upd h i (withLast (h i) v)) j).V = (h j).V := by
  simp only [upd]
  split_ifs with hh
  · subst hh
    rfl
  · rfl

@[simp] lemma upd_withLast_P (h : Heap) (i : Nat) (v : Option Nat) (j : Nat) :
    ((upd h i (withLast (h i) v)) j).P = (h j).P := by
  simp only [upd]
  split_ifs with hh
  · subst hh
    rfl
  · rfl

@[simp] lemma upd_withLast_left (h : Heap) (i : Nat) (v : Option Nat) (j : Nat) :
    ((upd h i (withLast (h i) v)) j).left = (h j).left := by
  simp only [upd]
  split_ifs with hh
  · subst hh
    rfl
  · rfl

@[simp] lemma upd_withLast_right (h : Heap) (i : Nat) (v : Option Nat) (j : Nat) :
    ((upd h i (withLast (h i) v)) j).right = (h j).right := by
  simp only [upd]
  split_ifs with hh
  · subst hh
    rfl
  · rfl

@[simp] lemma upd_withLast_first (h : Heap) (i : Nat) (v : Option Nat) (j : Nat) :
    ((upd h i (withLast (h i) v)) j).first = (h j).first := by
  simp only [upd]
  split_ifs with hh
  · subst hh
    rfl
  · rfl

@[simp] lemma upd_withLast_last (h : Heap) (i : Nat) (v : Option Nat) (j : Nat) :
    ((upd h i (withLast (h i) v)) j).last = if j = i then v else (h j).last := by
  simp only [upd]
  split_ifs <;> rfl

@[simp] lemma upd_withLast_count (h : Heap) (i : Nat) (v : Option Nat) (j : Nat) :
    ((upd h i (withLast (h i) v)) j).count = (h j).count := by
  simp only [upd]
  split_ifs with hh
  · subst hh
    rfl
  · rfl

@[simp] lemma upd_withRight_T (h : Heap) (i : Nat) (v : Option Nat) (j : Nat) :
    ((upd h i (withRight (h i) v)) j).T = (h j).T := by
  simp only [upd]
  split_ifs with hh
  · subst hh
    rfl
  · rfl

@[simp] lemma upd_withRight_V (h : Heap) (i : Nat) (v : Option Nat) (j : Nat) :
    ((upd h i (withRight (h i) v)) j).V = (h j).V := by
  simp only [upd]
  split_ifs with hh
  · subst hh
    rfl
  · rfl

@[simp] lemma upd_withRight_P (h : Heap) (i : Nat) (v : Option Nat) (j : Nat) :
    ((upd h i (withRight (h i) v)) j).P = (h j).P := by
  simp only [upd]
  split_ifs with hh
  · subst hh
    rfl
  · rfl

@[simp] lemma upd_withRight_left (h : Heap) (i : Nat) (v : Option Nat) (j : Nat) :
    ((upd h i (withRight (h i) v)) j).left = (h j).left := by
  simp only [upd]
  split_ifs with hh
  · subst hh
    rfl
  · rfl

@[simp] lemma upd_withRight_right (h : Heap) (i : Nat) (v : Option Nat) (j : Nat) :
    ((upd h i (withRight (h i) v)) j).right = if j = i then v else (h j).right := by
  simp only [upd]
  split_ifs <;> rfl

@[simp] lemma upd_withRight_first (h : Heap) (i : Nat) (v : Option Nat) (j : Nat) :
    ((upd h i (withRight (h i) v)) j).first = (h j).first := by
  simp only [upd]
  split_ifs with hh
  · subst hh
    rfl
  · rfl

@[simp] lemma upd_withRight_last (h : Heap) (i : Nat) (v : Option Nat) (j : Nat) :
    ((upd h i (withRight (h i) v)) j).last = (h j).last := by
  simp only [upd]
  split_ifs with hh
  · subst hh
    rfl
  · rfl

@[simp] lemma upd_withRight_count (h : Heap) (i : Nat) (v : Option Nat) (j : Nat) :
    ((upd h i (withRight (h i) v)) j).count = (h j).count := by
  simp only [upd]
  split_ifs with hh
  · subst hh
    rfl
  · rfl

@[simp] lemma upd_withLeft_T (h : Heap) (i : Nat) (v : Option Nat) (j : Nat) :
    ((upd h i (withLeft (h i) v)) j).T = (h j).T := by
  simp only [upd]
  split_ifs with hh
  · subst hh
    rfl
  · rfl

@[simp] lemma upd_withLeft_V (h : Heap) (i : Nat) (v : Option Nat) (j : Nat) :
    ((upd h i (withLeft (h i) v)) j).V = (h j).V := by
  simp only [upd]
  split_ifs with hh
  · subst hh
    rfl
  · rfl

@[simp] lemma upd_withLeft_P (h : Heap) (i : Nat) (v : Option Nat) (j : Nat) :
    ((upd h i (withLeft (h i) v)) j).P = (h j).P := by
  simp only [upd]
  split_ifs with hh
  · subst hh
    rfl
  · rfl

@[simp] lemma upd_withLeft_left (h : Heap) (i : Nat) (v : Option Nat) (j : Nat) :
    ((upd h i (withLeft (h i) v)) j).left = if j = i then v else (h j).left := by
  simp only [upd]
  split_ifs <;> rfl

@[simp] lemma upd_withLeft_right (h : Heap) (i : Nat) (v : Option Nat) (j : Nat) :
    ((upd h i (withLeft (h i) v)) j).right = (h j).right := by
  simp only [upd]
  split_ifs with hh
  · subst hh
    rfl
  · rfl

@[simp] lemma upd_withLeft_first (h : Heap) (i : Nat) (v : Option Nat) (j : Nat) :
    ((upd h i (withLeft (h i) v)) j).first = (h j).first := by
  simp only [upd]
  split_ifs with hh
  · subst hh
    rfl
  · rfl

@[simp] lemma upd_withLeft_last (h : Heap) (i : Nat) (v : Option Nat) (j : Nat) :
    ((upd h i (withLeft (h i) v)) j).last = (h j).last := by
  simp only [upd]
  split_ifs with hh
  · subst hh
    rfl
  · rfl

@[simp] lemma upd_withLeft_count (h : Heap) (i : Nat) (v : Option Nat) (j : Nat) :
    ((upd h i (withLeft (h i) v)) j).count = (h j).count := by
  simp only [upd]
  split_ifs with hh
  · subst hh
    rfl
  · rfl

lemma appendNode_facts (h : Heap) (n u : Nat) (hu : u ≠ n) :
    ((appendNode h n u) n).V = (h n).V ∧
    ((appendNode h n u) n).count = (h n).count + 1 ∧
    ((appendNode h n u) n).last = some u ∧
    ((appendNode h n u) u).P = (h u).P := by
  have hun : ¬(n = u) := fun hh => hu hh.symm
  unfold appendNode
  simp only [upd_withCount_first]
  by_cases hfirst : (h n).first = none <;>
    simp only [hfirst, if_true, if_false, reduceIte] <;>
    refine ⟨?_, ?_, ?_, ?_⟩ <;>
    simp [hu, hun]

/-- C3 counterexample: starting from a node (id 0) whose value is the
non-empty string "x", a single Add of a child (fresh id 1, type 2, value
"y") leaves the parent with both its non-empty value and a one-element
child list, and its count incremented: the exclusivity is not rejected or
cleared at the point the child is added. -/
theorem C3_invariantNotEnforced :
    ((addNode c3Heap 0 1 2 "y") 0).V = "x" ∧
    chainB (addNode c3Heap 0 1 2 "y") ((addNode c3Heap 0 1 2 "y") 0).first
      [1] none = true ∧
    ((addNode c3Heap 0 1 2 "y") 0).count = 1 := by decide

/-- C3 (amended): the code never enforces the leaf/branch exclusivity: Add
unconditionally appends the new child and increments the count while
leaving the receiver's value untouched (neither rejecting the operation
nor clearing the value), so a node can simultaneously hold a non-empty
value and children. The exclusivity is only a documented serialization
convention, and the source's own example test breaks it deliberately. -/
theorem C3_addPermitsBoth (h : Heap) (n u : Nat) (t : Int) (v : String)
    (hu : u ≠ n) :
    ((addNode h n u t v) n).V = (h n).V ∧
    ((addNode h n u t v) n).count = (h n).count + 1 ∧
    ((addNode h n u t v) u).P = some n := by
  unfold addNode
  have hfacts :=
    appendNode_facts
      (upd h u
        { T := t, V := v, P := some n, left := none, right := none,
          first := none, last := none, count := 0 })
      n u hu
  refine ⟨?_, ?_, ?_⟩
  · rw [hfacts.1, upd_ne _ _ _ _ (fun hh => hu hh.symm)]
  · rw [hfacts.2.1, upd_ne _ _ _ _ (fun hh => hu hh.symm)]
  · rw [hfacts.2.2.2, upd_same]

/-- C3 witness: the amended statement evaluated at the concrete heap. -/
theorem C3_addPermitsBoth_witness :
    ((addNode c3Heap 0 1 2 "y") 0).V = (c3Heap 0).V ∧
    ((addNode c3Heap 0 1 2 "y") 0).count = (c3Heap 0).count + 1 ∧
    ((addNode c3Heap 0 1 2 "y") 1).P = some 0 :=
  C3_addPermitsBoth c3Heap 0 1 2 "y" (by decide)

lemma chainB_nil_eq (h : Heap) (p q : Option Nat) :
    chainB h p [] q = (p == q) := rfl

lemma chainB_cons_eq (h : Heap) (p : Option Nat) (i : Nat) (rest : List Nat)
    (q : Option Nat) :
    chainB h p (i :: rest) q = (p == some i && chainB h (h i).right rest q) := rfl

lemma getLast?_mem_list (l : List Nat) (x : Nat) (h : l.getLast? = some x) :
    x ∈ l := by
  obtain ⟨hne, hx⟩ := List.mem_getLast?_eq_getLast (Option.mem_def.mpr h)
  subst hx
  exact List.getLast_mem hne

lemma chainB_append (h : Heap) (l2 : List Nat) (r : Option Nat) :
    ∀ (l1 : List Nat) (p q : Option Nat),
      chainB h p l1 q = true → chainB h q l2 r = true →
      chainB h p (l1 ++ l2) r = true
  | [], p, q, h1, h2 => by
    simp only [chainB_nil_eq, beq_iff_eq] at h1
    simpa [h1] using h2
  | i :: rest, p, q, h1, h2 => by
    simp only [List.cons_append, chainB_cons_eq, Bool.and_eq_true] at h1 ⊢
    exact ⟨h1.1, chainB_append h l2 r rest (h i).right q h1.2 h2⟩

lemma chainB_congr (h h2 : Heap) (q : Option Nat) :
    ∀ (l : List Nat) (p : Option Nat),
      (∀ i ∈ l, (h2 i).right = (h i).right) →
      chainB h p l q = true → chainB h2 p l q = true
  | [], _, _, hc => hc
  | i :: rest, p, hsame, hc => by
    simp only [chainB_cons_eq, Bool.and_eq_true] at hc ⊢
    refine ⟨hc.1, ?_⟩
    rw [hsame i (by simp)]
    exact chainB_congr h h2 q rest (h i).right
      (fun j hj => hsame j (by simp [hj])) hc.2

lemma chainB_set_last (h h2 : Heap) (x : Nat) (q q2 : Option Nat)
    (hx : (h2 x).right = q2) :
    ∀ (l : List Nat) (p : Option Nat), l.Nodup → l.getLast? = some x →
      (∀ i ∈ l, i ≠ x → (h2 i).right = (h i).right) →
      chainB h p l q = true → chainB h2 p l q2 = true
  | [], _, _, hl, _, _ => by simp at hl
  | [i], _, _, hl, _, hc => by
    simp only [List.getLast?_singleton, Option.some.injEq] at hl
    simp only [chainB_cons_eq, chainB_nil_eq, Bool.and_eq_true, beq_iff_eq]
      at hc ⊢
    subst hl
    exact ⟨hc.1, hx⟩
  | i :: j :: rest2, p, hnd, hl, hother, hc => by
    have hl2 : (j :: rest2).getLast? = some x := by simpa using hl
    have hxmem : x ∈ j :: rest2 := getLast?_mem_list _ _ hl2
    have hix : i ≠ x := fun hh => (List.nodup_cons.mp hnd).1 (hh ▸ hxmem)
    rw [chainB_cons_eq, Bool.and_eq_true] at hc
    rw [chainB_cons_eq, Bool.and_eq_true]
    refine ⟨hc.1, ?_⟩
    rw [hother i (by simp) hix]
    exact chainB_set_last h h2 x q q2 hx (j :: rest2) (h i).right
      (List.nodup_cons.mp hnd).2 hl2
      (fun k hk hkx => hother k (by simp [hk]) hkx) hc.2

set_option maxHeartbeats 1000000 in
/-- C5: for a well-formed receiver n and donor f (distinct nodes, the donor
with children), Take moves all of the donor's children under the receiver
in their original order, appended after the receiver's existing children
(the receiver's child chain becomes its old list followed by the donor's
list, its last pointer moving to the donor's old last child); the donor
ends with no children and count 0; and the receiver's count becomes the
sum of both prior counts. The moved children keep their identities; their
stale parent pointers are not rewritten (the O(1) relinking never visits
them), which the child-chain representation makes visible. -/
theorem C5_takeMovesChildren (h : Heap) (n f : Nat) (l1 l2 : List Nat)
    (hc1 : chainB h (h n).first l1 none = true)
    (hc2 : chainB h (h f).first l2 none = true)
    (hne : l2 ≠ [])
    (hl1 : (h n).last = l1.getLast?)
    (hl2 : (h f).last = l2.getLast?)
    (hcnt1 : (h n).count = (l1.length : Int))
    (hcnt2 : (h f).count = (l2.length : Int))
    (hnd : (l1 ++ l2).Nodup)
    (hnmem : n ∉ l1 ++ l2) (hfmem : f ∉ l1 ++ l2) (hnf : n ≠ f) :
    chainB (takeN h n f) ((takeN h n f) n).first (l1 ++ l2) none = true ∧
    ((takeN h n f) f).first = none ∧
    ((takeN h n f) f).last = none ∧
    ((takeN h n f) f).count = 0 ∧
    ((takeN h n f) n).count = (h n).count + (h f).count ∧
    ((takeN h n f) n).last = l2.getLast? := by
  have hfn : f ≠ n := fun hh => hnf hh.symm
  obtain ⟨hnd1, hnd2, hdisj⟩ := List.nodup_append.mp hnd
  rcases l2 with _ | ⟨c2, t2⟩
  · exact absurd rfl hne
  have hffirst : (h f).first = some c2 := by
    simp only [chainB, Bool.and_eq_true, beq_iff_eq] at hc2
    exact hc2.1
  have hc2' : chainB h (some c2) (c2 :: t2) none = true := hffirst ▸ hc2
  rcases l1 with _ | ⟨c1, t1⟩
  · -- receiver has no children: the first-branch of Take
    have hnfirst : (h n).first = none := by
      simpa only [chainB, beq_iff_eq] using hc1
    have hcz : (h n).count = 0 := by simpa using hcnt1
    refine ⟨?_, ?_, ?_, ?_, ?_, ?_⟩ <;>
      simp only [takeN, hffirst, hnfirst, if_true, reduceIte, reduceCtorEq,
        if_false, upd_withCount_count, upd_withCount_first, upd_withCount_last,
        upd_withCount_right, upd_withFirst_first, upd_withFirst_last,
        upd_withFirst_count, upd_withFirst_right, upd_withLast_last,
        upd_withLast_first, upd_withLast_count, upd_withLast_right,
        hnf, hfn, if_true, if_false, ite_true, ite_false, reduceIte, hcz] <;>
      simp [hnf, hfn, hl2, hcz]
    exact chainB_congr h _ none (c2 :: t2) (some c2) (fun i hi => by
      simp only [takeN, hffirst, hnfirst, reduceCtorEq, if_false, reduceIte,
        upd_withCount_right, upd_withFirst_right, upd_withLast_right]) hc2'
  · -- receiver has children c1 :: t1: the else-branch of Take
    have hnfirst : (h n).first = some c1 := by
      simp only [chainB, Bool.and_eq_true, beq_iff_eq] at hc1
      exact hc1.1
    have hc1' : chainB h (some c1) (c1 :: t1) none = true := hnfirst ▸ hc1
    obtain ⟨xl, hxl⟩ : ∃ xl, (c1 :: t1).getLast? = some xl := by
      rcases hgl : (c1 :: t1).getLast? with _ | xl
      · simp at hgl
      · exact ⟨xl, rfl⟩
    have hxlmem : xl ∈ c1 :: t1 := getLast?_mem_list _ _ hxl
    have hxln : xl ≠ n := fun hh => hnmem (by
      simp only [List.mem_append]
      exact Or.inl (hh ▸ hxlmem))
    have hxlf : xl ≠ f := fun hh => hfmem (by
      simp only [List.mem_append]
      exact Or.inl (hh ▸ hxlmem))
    have hnxl : n ≠ xl := fun hh => hxln hh.symm
    have hfxl : f ≠ xl := fun hh => hxlf hh.symm
    have hc2n : c2 ≠ n := fun hh => hnmem (by simp [← hh])
    have hc2f : c2 ≠ f := fun hh => hfmem (by simp [← hh])
    have hc2xl : c2 ≠ xl := fun hh => hdisj (hh ▸ hxlmem) (by simp)
    have hxlc2 : xl ≠ c2 := fun hh => hc2xl hh.symm
    refine ⟨?_, ?_, ?_, ?_, ?_, ?_⟩
    case refine_2 =>
      simp [takeN, hffirst, hnfirst, hnf, hfn, hl1, hxl, hfxl, hc2f]
    case refine_3 =>
      simp [takeN, hffirst, hnfirst, hnf, hfn, hl1, hxl, hfxl, hc2f]
    case refine_4 =>
      simp [takeN, hffirst, hnfirst, hnf, hfn, hl1, hxl, hfxl, hc2f]
    case refine_5 =>
      simp [takeN, hffirst, hnfirst, hnf, hfn, hl1, hxl, hnxl, hc2n]
    case refine_6 =>
      simp [takeN, hffirst, hnfirst, hnf, hfn, hl1, hxl, hl2, hnxl, hc2n]
    case refine_1 =>
      have hfirstN : ((takeN h n f) n).first = some c1 := by
        simp [takeN, hffirst, hnfirst, hnf, hfn, hl1, hxl, hnxl, hc2n]
      rw [hfirstN]
      refine chainB_append _ _ _ _ _ (some c2) ?_ ?_
      · refine chainB_set_last h _ xl none (some c2) ?_ (c1 :: t1) (some c1)
          hnd1 hxl ?_ hc1'
        · simp [takeN, hffirst, hnfirst, hnf, hfn, hl1, hxl, hxln, hxlf, hxlc2]
        · intro i hi hix
          have hixn : ¬i = xl := hix
          simp [takeN, hffirst, hnfirst, hnf, hfn, hl1, hxl, hixn]
      · refine chainB_congr h _ none (c2 :: t2) (some c2) (fun i hi => ?_) hc2'
        have hixl : ¬i = xl := fun hh => hdisj (hh ▸ hxlmem) hi
        simp [takeN, hffirst, hnfirst, hnf, hfn, hl1, hxl, hixl]

/-- C5 witness: Take on the concrete heap with receiver 0 (one child, id 2)
and donor 1 (children 3 then 4). -/
theorem C5_takeMovesChildren_witness :
    chainB (takeN c5Heap 0 1) ((takeN c5Heap 0 1) 0).first [2, 3, 4] none = true ∧
    ((takeN c5Heap 0 1) 1).first = none ∧
    ((takeN c5Heap 0 1) 1).last = none ∧
    ((takeN c5Heap 0 1) 1).count = 0 ∧
    ((takeN c5Heap 0 1) 0).count = (c5Heap 0).count + (c5Heap 1).count ∧
    ((takeN c5Heap 0 1) 0).last = [3, 4].getLast? :=
  C5_takeMovesChildren c5Heap 0 1 [2] [3, 4] (by decide) (by decide)
    (by decide) (by decide) (by decide) (by decide) (by decide) (by decide)
    (by decide) (by decide) (by decide)

/-- C6: Node JSON serialization always emits key T, emits key V exactly
when the value is non-empty, and emits key N (the children in sibling
order) exactly when there is at least one child; on the heap holding a
node of type 0 with no value and one child of type 2 with value "some",
the marshalled output is exactly the wire string the spec requires. -/
theorem C6_marshalSchema :
    (∀ (t : Int) (v : String) (kids : List AstNode),
      astMarshal (.mk t v kids) =
        "\x7b\"T\":" ++ toString t ++
        (if v = "" then "" else ",\"V\":" ++ jsonQuote v) ++
        (if kids.isEmpty then "" else ",\"N\":[" ++ astMarshalList kids ++ "]") ++
        "\x7d") ∧
    astMarshal (readNode c6Heap 2 0) =
      "\x7b\"T\":0,\"N\":[\x7b\"T\":2,\"V\":\"some\"\x7d]\x7d" := by
  exact ⟨fun t v kids => rfl, by decide⟩

lemma pchainB_cons_eq (h : PHeap) (p : Option Nat) (i : Nat) (rest : List Nat)
    (q : Option Nat) :
    pchainB h p (i :: rest) q = (p == some i && pchainB h (h i).R rest q) := rfl

lemma pnodesLoop_dropLast (h : PHeap) :
    ∀ (l : List Nat) (c : Nat) (fuel : Nat),
      pchainB h (some c) l none = true → l.length ≤ fuel →
      pnodesLoop h fuel c = l.dropLast
  | [], c, fuel, hc, _ => by simp [pchainB] at hc
  | [i], c, fuel, hc, hf => by
    simp only [pchainB_cons_eq, pchainB, Bool.and_eq_true, beq_iff_eq] at hc
    obtain ⟨hci, hrest⟩ := hc
    obtain ⟨c2, rfl⟩ : ∃ k, fuel = k + 1 := by
      cases fuel
      · simp at hf
      · exact ⟨_, rfl⟩
    cases hci
    simp [pnodesLoop, hrest]
  | i :: j :: rest, c, fuel, hc, hf => by
    rw [pchainB_cons_eq, Bool.and_eq_true] at hc
    obtain ⟨hci, hrest⟩ := hc
    have hci' : c = i := by simpa using hci
    obtain ⟨k, rfl⟩ : ∃ k, fuel = k + 1 := by
      cases fuel
      · simp at hf
      · exact ⟨_, rfl⟩
    have hr : (h i).R = some j := by
      rw [pchainB_cons_eq, Bool.and_eq_true] at hrest
      simpa using hrest.1
    subst hci'
    simp only [pnodesLoop, hr]
    rw [hr] at hrest
    rw [pnodesLoop_dropLast h (j :: rest) j k hrest (by simpa using hf)]
    simp

/-- C9: pegn.Node.Nodes returns exactly the children that have a right
sibling (the walk stops at, and omits, the child whose R is nil), so for
a chain of k children it yields the first k-1 and for a single child an
empty slice; consequently Node.String serializes a single-child node with
the N key omitted entirely (the concrete one-child heap renders as just
the type), and on the two-child heap of the repository's own example test
the N array contains only the first child. -/
theorem C9_nodesDropLast :
    (∀ (h : PHeap) (n : Nat) (l : List Nat) (fuel : Nat),
      pchainB h (h n).U l none = true → l.length ≤ fuel →
      pnodes h fuel n = l.dropLast) ∧
    pegnString c9Heap1 5 0 = "\x7b\"T\":0\x7d" ∧
    pnodes c9Heap2 5 0 = [1] ∧
    (pnodes c9Heap2 5 0).length = 1 := by
  refine ⟨?_, by decide, by decide, by decide⟩
  intro h n l fuel hc hf
  unfold pnodes
  rcases hU : (h n).U with _ | c
  · rw [hU] at hc
    rcases l with _ | ⟨i, rest⟩
    · simp
    · rw [pchainB_cons_eq] at hc
      simp at hc
  · rw [hU] at hc
    rcases l with _ | ⟨i, rest⟩
    · simp [pchainB] at hc
    · have hci : c = i := by
        rw [pchainB_cons_eq, Bool.and_eq_true] at hc
        simpa using hc.1
      subst hci
      exact pnodesLoop_dropLast h (c :: rest) c fuel hc hf

/-- C9 witness: the general clause instantiated on the two-child heap. -/
theorem C9_nodesDropLast_witness :
    pnodes c9Heap2 5 0 = [1, 2].dropLast :=
  C9_nodesDropLast.1 c9Heap2 0 [1, 2] 5 (by decide) (by decide)

lemma atomic_nil : atomicNewlines [] = 0 := by simp [atomicNewlines]

lemma atomic_crlf (l : List Nat) :
    atomicNewlines (13 :: 10 :: l) = atomicNewlines l + 1 := by
  simp [atomicNewlines]

lemma atomic_lf (l : List Nat) :
    atomicNewlines (10 :: l) = atomicNewlines l + 1 := by
  simp [atomicNewlines]

lemma atomic_cr_notlf (l : List Nat) (h : l.head? ≠ some 10) :
    atomicNewlines (13 :: l) = atomicNewlines l := by
  simp [atomicNewlines, h]

lemma atomic_other (b : Nat) (l : List Nat) (h13 : b ≠ 13) (h10 : b ≠ 10) :
    atomicNewlines (b :: l) = atomicNewlines l := by
  simp [atomicNewlines, h13, h10]

set_option maxHeartbeats 1600000 in
lemma utf8Info_lo (b : Nat) (hb : ¬b < 0x80) (hsz : (utf8Info b).1 ≠ 0) :
    0x80 ≤ (utf8Info b).2.1 := by
  unfold utf8Info at hsz ⊢
  split_ifs at hsz ⊢ <;> simp_all

set_option maxHeartbeats 1600000 in
lemma atomic_skip_decode (b : Nat) (rest : List Nat) (hb : 0x80 < b) :
    atomicNewlines (b :: rest) =
      atomicNewlines (rest.drop ((decodeRune (b :: rest)).2 - 1)) := by
  have hb13 : b ≠ 13 := by omega
  have hb10 : b ≠ 10 := by omega
  have hnb : ¬b < 0x80 := by omega
  rcases rest with _ | ⟨b1, _ | ⟨b2, _ | ⟨b3, rest3⟩⟩⟩ <;>
    simp only [decodeRune, hnb, if_false, reduceIte] <;>
    split_ifs <;>
    simp_all [List.drop, atomic_other b _ hb13 hb10]
  all_goals
    repeat'
      first
      | rfl
      | rw [atomic_other _ _
          (by have hlo := utf8Info_lo b (by omega) (by omega); omega)
          (by have hlo := utf8Info_lo b (by omega) (by omega); omega)]

lemma getD_eq_head_drop (buf : List Nat) (i b : Nat) (rest : List Nat)
    (hdrop : buf.drop i = b :: rest) (hi : i < buf.length) :
    buf.getD i 0 = b := by
  have h2 : (buf.drop i).getD 0 0 = b := by rw [hdrop]; rfl
  rw [List.getD_eq_getElem _ _ hi]
  rw [List.getD_eq_getElem _ _ (by rw [hdrop]; simp)] at h2
  rw [List.getElem_drop] at h2
  simpa using h2

lemma drop_add_of_drop (buf : List Nat) (i k : Nat) (b : Nat) (rest : List Nat)
    (hdrop : buf.drop i = b :: rest) :
    buf.drop (i + k) = (b :: rest).drop k := by
  rw [← hdrop, ← List.drop_drop]  -- orientation checked at compile

lemma isStr_val (s : S) (a : List Nat) :
    isStr s a = if s.Buf.length < a.length + s.B then false
                else decide ((s.Buf.drop s.B).take a.length = a) := rfl

lemma ite_false_decide_eq_true (A : Prop) [Decidable A] (B : Prop) [Decidable B] :
    ((if A then false else decide B) = true) ↔ (¬A ∧ B) := by
  split_ifs with h <;> simp [h]

set_option maxHeartbeats 1600000 in
lemma step_facts (buf : List Nat) (st : PosSt) (t1 : S)
    (hi : st.t.E < buf.length)
    (hbuf : st.t.Buf = buf)
    (ht1 : t1 = { st.t with B := st.t.E, E := st.t.E + (decodedAt buf st.t.E).2,
                            R := (decodedAt buf st.t.E).1 }) :
    (nlFold [[13, 10], [10]] { st with t := t1 }).t.Buf = buf ∧
    st.t.E < (nlFold [[13, 10], [10]] { st with t := t1 }).t.E ∧
    (nlFold [[13, 10], [10]] { st with t := t1 }).line +
        atomicNewlines (buf.drop (nlFold [[13, 10], [10]] { st with t := t1 }).t.E) =
      st.line + atomicNewlines (buf.drop st.t.E) := by
  obtain ⟨b, rest, hdrop⟩ : ∃ b rest, buf.drop st.t.E = b :: rest := by
    rcases hd : buf.drop st.t.E with _ | ⟨b, rest⟩
    · have := List.drop_eq_nil_iff.mp hd
      omega
    · exact ⟨b, rest, rfl⟩
  have hlen : buf.length = st.t.E + 1 + rest.length := by
    have hh := congrArg List.length hdrop
    simp only [List.length_drop, List.length_cons] at hh
    omega
  have hgetD : buf.getD st.t.E 0 = b := getD_eq_head_drop buf _ b rest hdrop hi
  have hdec : decodedAt buf st.t.E =
      if 0x80 < b then decodeRune (b :: rest) else (b, 1) := by
    unfold decodedAt runeSelf
    rw [hgetD, hdrop]
  have hpos : 1 ≤ (decodedAt buf st.t.E).2 := decodedAt_pos buf _ hi
  subst ht1
  simp only [nlFold, List.foldl_cons, List.foldl_nil]
  split_ifs with h1 h2 h2
  · -- both CRLF and LF claimed to match at the same byte: impossible
    exfalso
    rcases rest with _ | ⟨r0, rest2⟩
    · rw [isStr_val] at h1
      simp only [hbuf, hdrop, ite_false_decide_eq_true] at h1
      obtain ⟨-, hc'⟩ := h1
      simp at hc'
    · rw [isStr_val] at h1 h2
      simp only [hbuf, hdrop, List.length_cons, List.length_nil, Nat.zero_add,
        List.take_succ_cons, List.take_zero, ite_false_decide_eq_true,
        List.cons.injEq, and_true] at h1 h2
      omega
  · -- CRLF matches: one atomic newline event over two bytes
    rcases rest with _ | ⟨r0, rest2⟩
    · exfalso
      rw [isStr_val] at h1
      simp only [hbuf, hdrop, ite_false_decide_eq_true] at h1
      obtain ⟨-, hc'⟩ := h1
      simp at hc'
    · rw [isStr_val] at h1
      simp only [hbuf, hdrop, List.length_cons, List.length_nil, Nat.zero_add,
        List.take_succ_cons, List.take_zero, ite_false_decide_eq_true,
        List.cons.injEq, and_true] at h1
      obtain ⟨hbound, hb13, hr0⟩ := h1
      subst hb13
      subst hr0
      have hd2 : (decodedAt buf st.t.E).2 = 1 := by
        rw [hdec]
        norm_num
      refine ⟨hbuf, ?_, ?_⟩
      · show st.t.E < st.t.E + (decodedAt buf st.t.E).2 + ([13, 10].length - 1)
        simp only [hd2, List.length_cons, List.length_nil]
        omega
      · show st.line + 1 +
            atomicNewlines (buf.drop (st.t.E + (decodedAt buf st.t.E).2 +
              ([13, 10].length - 1))) =
          st.line + atomicNewlines (buf.drop st.t.E)
        rw [hd2, hdrop]
        have hdd : buf.drop (st.t.E + 2) = (13 :: 10 :: rest2).drop 2 :=
          drop_add_of_drop buf st.t.E 2 _ _ hdrop
        rw [show st.t.E + 1 + ([13, 10].length - 1) = st.t.E + 2 by simp]
        rw [hdd, atomic_crlf]
        simp only [List.drop_succ_cons, List.drop_zero]
        omega
  · -- a lone LF matches: one atomic newline event over one byte
    rw [isStr_val] at h2
    simp only [hbuf, hdrop, List.length_cons, List.length_nil, Nat.zero_add,
      List.take_succ_cons, List.take_zero, ite_false_decide_eq_true,
      List.cons.injEq, and_true] at h2
    obtain ⟨hbound, hb10⟩ := h2
    subst hb10
    have hd2 : (decodedAt buf st.t.E).2 = 1 := by
      rw [hdec]
      norm_num
    refine ⟨hbuf, ?_, ?_⟩
    · show st.t.E < st.t.E + (decodedAt buf st.t.E).2 + ([10].length - 1)
      simp only [hd2, List.length_cons, List.length_nil]
      omega
    · show st.line + 1 +
          atomicNewlines (buf.drop (st.t.E + (decodedAt buf st.t.E).2 +
            ([10].length - 1))) =
        st.line + atomicNewlines (buf.drop st.t.E)
      rw [hd2, hdrop]
      have hdd : buf.drop (st.t.E + 1) = (10 :: rest).drop 1 :=
        drop_add_of_drop buf st.t.E 1 _ _ hdrop
      rw [show st.t.E + 1 + ([10].length - 1) = st.t.E + 1 by simp]
      rw [hdd, atomic_lf]
      simp only [List.drop_succ_cons, List.drop_zero]
      omega
  · -- no newline sequence at this byte
    refine ⟨hbuf, ?_, ?_⟩
    · show st.t.E < st.t.E + (decodedAt buf st.t.E).2
      omega
    · show st.line +
          atomicNewlines (buf.drop (st.t.E + (decodedAt buf st.t.E).2)) =
        st.line + atomicNewlines (buf.drop st.t.E)
      rw [drop_add_of_drop buf _ _ b rest hdrop, hdrop]
      by_cases hbig : 0x80 < b
      · have hd2 : (decodedAt buf st.t.E).2 = (decodeRune (b :: rest)).2 := by
          rw [hdec, if_pos hbig]
        obtain ⟨k, hk⟩ : ∃ k, (decodeRune (b :: rest)).2 = k + 1 := by
          have := decodeRune_snd_pos b rest
          cases hq : (decodeRune (b :: rest)).2
          · omega
          · exact ⟨_, rfl⟩
        rw [hd2, hk, List.drop_succ_cons]
        have hskip := atomic_skip_decode b rest hbig
        rw [hk] at hskip
        simp only [Nat.add_sub_cancel] at hskip
        rw [hskip]
      · have hd2 : (decodedAt buf st.t.E).2 = 1 := by
          rw [hdec, if_neg hbig]
        rw [hd2, List.drop_succ_cons, List.drop_zero]
        have hb10 : b ≠ 10 := by
          intro hh
          apply h2
          rw [isStr_val]
          simp only [hbuf, hdrop, List.length_cons, List.length_nil,
            Nat.zero_add, List.take_succ_cons, List.take_zero,
            ite_false_decide_eq_true, List.cons.injEq, and_true]
          exact ⟨by omega, by simp [hh]⟩
        by_cases hb13 : b = 13
        · subst hb13
          have hhead : rest.head? ≠ some 10 := by
            intro hh
            apply h1
            rcases rest with _ | ⟨r0, rest2⟩
            · simp at hh
            · have hr0 : r0 = 10 := by simpa using hh
              subst hr0
              rw [isStr_val]
              simp only [List.length_cons, List.length_nil] at hlen
              simp only [hbuf, hdrop, List.length_cons, List.length_nil,
                Nat.zero_add, List.take_succ_cons, List.take_zero,
                ite_false_decide_eq_true, List.cons.injEq, and_true]
              omega
          rw [atomic_cr_notlf rest hhead]
        · rw [atomic_other b rest hb13 hb10]

lemma recordQs_t (qs : List Nat) (st : PosSt) : (recordQs qs st).t = st.t := rfl

lemma recordQs_line (qs : List Nat) (st : PosSt) :
    (recordQs qs st).line = st.line := rfl

set_option maxHeartbeats 1600000 in
lemma posLoop_line (buf : List Nat) (qs : List Nat) (rlen : Nat) :
    ∀ (fuel : Nat) (st : PosSt), st.t.Buf = buf →
      buf.length - st.t.E < fuel →
      (posLoop [[13, 10], [10]] qs rlen fuel st).line =
        st.line + atomicNewlines (buf.drop st.t.E)
  | 0, st, _, hfuel => by omega
  | fuel + 1, st, hbuf, hfuel => by
    have hchar := scan_char st.t
    by_cases hE : st.t.Buf.length ≤ st.t.E
    · rw [if_pos hE] at hchar
      simp only [posLoop, hchar]
      have hdnil : buf.drop st.t.E = [] :=
        List.drop_eq_nil_iff.mpr (by rw [← hbuf]; exact hE)
      rw [hdnil, atomic_nil]
      omega
    · rw [if_neg hE] at hchar
      have hchar2 : scan st.t = (true, scanStep st.t) := hchar
      simp only [posLoop, hchar2]
      have hi : st.t.E < buf.length := by rw [← hbuf]; omega
      have hfacts := step_facts buf st (scanStep st.t) hi hbuf
        (by simp only [scanStep]; rw [hbuf])
      rw [posLoop_line buf qs rlen fuel _
        (by rw [recordQs_t]; exact hfacts.1)
        (by rw [recordQs_t]
            have h1 := hfacts.2.1
            omega)]
      rw [recordQs_line, recordQs_t]
      exact hfacts.2.2

/-- C7: the Positions pass over any buffer with the default newline
sequences treats CRLF and LF as atomic separators: its final line counter
is exactly one more than the number of atomic newline events in the
buffer, so each CRLF increments the line count exactly once, never twice;
line number, in-line byte offset and in-line code-point offset are all
carried by this same single forward pass. -/
theorem C7_positionsCRLFAtomic (s : S) (q : Nat) (qs : List Nat)
    (hnl : s.NewLine = []) :
    (positions s (q :: qs)).line = 1 + atomicNewlines s.Buf := by
  unfold positions
  rw [if_neg (by simp)]
  rw [hnl]
  simp only [if_pos rfl, reduceIte]
  rw [posLoop_line s.Buf (q :: qs) (runeByteLen s.R) (s.Buf.length + 1)
    { t := { Buf := s.Buf }, bufrune := 1, line := 1, lbyte := 1, lrune := 1,
      pos := (q :: qs).map (fun _ => positionZero) } rfl (by simp)]
  simp [Nat.add_comm]

/-- C7 witness: the pass over the repository's own Positions example
buffer, which mixes LF and CRLF line endings. -/
theorem C7_positionsCRLFAtomic_witness :
    (positions posExS [2, 12, 27]).line = 1 + atomicNewlines posExS.Buf :=
  C7_positionsCRLFAtomic posExS 2 [12, 27] rfl
